import Mathlib

/-!
Verification development for the dust-persistence study repository.

The repository source tree contains only the package initializer
(src/__init__.py) and the data-acquisition collaborator
(src/data_acquisition.py).  The analytical modules referenced by the
initializer (event_detection, temporal_analysis, statistical_analysis,
visualization) are absent from the tree, so the analytical components
(DustEventDetector, TemporalAnalyzer, StatisticalAnalyzer) are modelled
from the specification text, as marked in their doc comments.  The
package-import behaviour and the DataAcquisition methods are embedded
directly from the Python source.
-/

/- ================= Package import model (src/__init__.py) ================= -/

/-- The module names imported by src/__init__.py, in source order
(lines 17 to 21): each `from .m import X` statement requires sibling
module m to exist. -/
def packageImports : List String :=
  ["data_acquisition", "event_detection", "temporal_analysis",
   "statistical_analysis", "visualization"]

/-- The sibling modules actually present in the source tree: src/ holds
only __init__.py and data_acquisition.py. -/
def sourceTreeModules : List String := ["data_acquisition"]

/-- Python import resolution for a list of `from .m import X` statements:
the statements run in order and the first one naming a module that is not
present raises ImportError, identified here by the missing module name. -/
def resolveImports : List String → Except String Unit
  | [] => .ok ()
  | m :: rest => if m ∈ sourceTreeModules then resolveImports rest else .error m

/-- Importing the package runs all import statements of __init__.py. -/
def importPackage : Except String Unit := resolveImports packageImports

/- ================= DustEventDetector (modelled from the spec) ============= -/

/-- DustEvent record, from the data model in the spec: event_id,
start_time, end_time, peak_magnitude, plus the duration and the
truncated flag used by the detector contract. -/
structure DustEvent (α : Type) where
  event_id : Nat
  start_time : Nat
  end_time : Nat
  duration : Nat
  peak_magnitude : Option α
  truncated : Bool
  deriving Repr, DecidableEq

/-- Indices of the anomaly series whose entry is valid and at least the
threshold.  Invalid or missing entries never exceed. -/
def exceedIndices [LinearOrder α] (a : List (Option α)) (t : α) : List Nat :=
  (List.range a.length).filter fun i =>
    match a.getD i none with
    | some v => decide (t ≤ v)
    | none => false

/-- Modelled from the spec: gap-bridging merge of the detector
(event_detection module absent from the source tree).  Splits a strictly
increasing index list into maximal runs in which consecutive exceeding
indices are separated by at most g non-exceeding steps, that is,
consecutive members j after i satisfy j - i - 1 <= g. -/
def groupByGap (g : Nat) : List Nat → List (List Nat)
  | [] => []
  | i :: rest =>
    match groupByGap g rest with
    | (j :: grp) :: grps =>
      if j ≤ i + g + 1 then (i :: j :: grp) :: grps
      else [i] :: (j :: grp) :: grps
    | _ => [[i]]

/-- Candidate events that survive the min_duration filter: a candidate
qualifies when it contains at least d exceeding steps (invalid or
sub-threshold bridged steps are not counted toward duration). -/
def keptGroups (g d : Nat) (l : List Nat) : List (List Nat) :=
  (groupByGap g l).filter fun grp => d ≤ grp.length

/-- Indices covered by the detected events. -/
def keptIndices (g d : Nat) (l : List Nat) : List Nat :=
  (keptGroups g d l).flatten

/-- Builds the DustEvent record of one kept candidate: start_time and
end_time are the first and the last exceeding step (the tie-break of the
spec: the gap-bridged filler is never the boundary), duration counts the
exceeding steps, peak_magnitude is the largest exceeding value, and the
truncated flag marks events that touch either end of the series. -/
def mkEvent [LinearOrder α] (a : List (Option α)) (idx : Nat) (grp : List Nat) :
    DustEvent α :=
  { event_id := idx
    start_time := grp.headI
    end_time := grp.getLastI
    duration := grp.length
    peak_magnitude := (grp.filterMap fun i => a.getD i none).max?
    truncated := decide (grp.headI = 0) || decide (grp.getLastI + 1 = a.length) }

namespace DustEventDetector

/-- Modelled from the spec: DustEventDetector.detect (event_detection
module absent from the source tree).  Marks exceeding steps against the
threshold, merges runs separated by gaps of at most max_gap, discards
candidates shorter than min_duration, and emits events ordered by
start_time with event_id assigned in that order. -/
def detect [LinearOrder α] (a : List (Option α)) (t : α) (d g : Nat) :
    List (DustEvent α) :=
  (keptGroups g d (exceedIndices a t)).enum.map fun p => mkEvent a p.1 p.2

end DustEventDetector

/-- Total duration of a detected event list. -/
def totalDuration (es : List (DustEvent α)) : Nat :=
  (es.map fun e => e.duration).sum

/- ================= DataAcquisition (src/data_acquisition.py) ============= -/

/-- Calendar date, carrying only what download_time_series inspects: the
month (checked against focus_months) and a day index distinguishing the
days of the requested range. -/
structure CalDay where
  month : Nat
  idx : Nat
  deriving Repr, DecidableEq

/-- Configuration slice used by the acquisition methods: the raw data
directory and the focus months. -/
structure AcqConfig where
  raw_dir : String
  focus_months : List Nat
  deriving Repr, DecidableEq

/-- Outcome of one remote download attempt: the Python call either
raises (requests.RequestException for the MODIS endpoints, any exception
for the CDS client) or yields the response content. -/
def DownloadResult := Except String String

/-- Embeds DataAcquisition.get_modis_aod (lines 55 to 98): on a raised
download the except clause logs and returns None; on success the
response content is written below raw_dir/modis_aod and the path string
is returned. -/
def get_modis_aod (cfg : AcqConfig) (stamp : String)
    (download : DownloadResult) : Option String :=
  match download with
  | .error _ => none
  | .ok _ => some (cfg.raw_dir ++ "/modis_aod/modis_aod_" ++ stamp ++ ".hdf")

/-- Embeds DataAcquisition.get_modis_cloud (lines 100 to 140): the
product depends on the satellite, the file is written below
raw_dir/modis_cloud, and a raised download returns None. -/
def get_modis_cloud (cfg : AcqConfig) (stamp : String) (satellite : String)
    (download : DownloadResult) : Option String :=
  match download with
  | .error _ => none
  | .ok _ =>
    some (cfg.raw_dir ++ "/modis_cloud/modis_cloud_" ++ satellite.toLower
      ++ "_" ++ stamp ++ ".hdf")

/-- Embeds DataAcquisition.get_era5_data (lines 142 to 205): the dataset
and the file name depend on whether pressure levels are requested, the
file is written below raw_dir/era5, and any raised exception in the try
block returns None. -/
def get_era5_data (cfg : AcqConfig) (stamp : String)
    (pressure_levels : Option (List Nat)) (download : DownloadResult) :
    Option String :=
  match download with
  | .error _ => none
  | .ok _ =>
    match pressure_levels with
    | some _ => some (cfg.raw_dir ++ "/era5/era5_pressure_" ++ stamp ++ ".nc")
    | none => some (cfg.raw_dir ++ "/era5/era5_single_" ++ stamp ++ ".nc")

/-- The data_type strings recognized by the dispatch in
download_time_series (lines 272 to 278). -/
def recognizedTypes : List String := ["modis_aod", "modis_cloud", "era5"]

/-- Inner loop of download_time_series over data_types (lines 272 to
281), embedded with the Python local variable filepath made explicit: the
outer Option is None while filepath is still unbound (reading it then is
a NameError, the error case), and a recognized data_type rebinds it to
the Option String returned by the matching get method (abstracted by the
oracle dl).  An unrecognized data_type leaves filepath untouched, and the
truthiness test `if filepath` then re-appends the stale value. -/
def typeLoop (dl : CalDay → String → Option String) (day : CalDay) :
    List String → Option (Option String) → Except Unit (List String × Option (Option String))
  | [], st => .ok ([], st)
  | dt :: rest, st =>
    let st' : Option (Option String) :=
      if dt = "modis_aod" then some (dl day "modis_aod")
      else if dt = "modis_cloud" then some (dl day "modis_cloud")
      else if dt = "era5" then some (dl day "era5")
      else st
    match st' with
    | none => .error ()
    | some fp =>
      match typeLoop dl day rest st' with
      | .error e => .error e
      | .ok (files, stEnd) =>
        .ok ((match fp with | some p => [p] | none => []) ++ files, stEnd)

/-- Embeds the day loop of DataAcquisition.download_time_series (lines
241 to 288): days outside focus_months are skipped before any download,
other days run the data_type loop, and the filepath state persists from
one day to the next exactly as the Python local does. -/
def dayLoop (cfg : AcqConfig) (dl : CalDay → String → Option String)
    (dataTypes : List String) :
    List CalDay → Option (Option String) → Except Unit (List String)
  | [], _ => .ok []
  | day :: days, st =>
    if day.month ∈ cfg.focus_months then
      match typeLoop dl day dataTypes st with
      | .error e => .error e
      | .ok (files, st') =>
        match dayLoop cfg dl dataTypes days st' with
        | .error e => .error e
        | .ok files' => .ok (files ++ files')
    else dayLoop cfg dl dataTypes days st

/-- DataAcquisition.download_time_series on the day range start..end,
represented by the list of its calendar days; filepath starts unbound. -/
def download_time_series (cfg : AcqConfig) (dl : CalDay → String → Option String)
    (dataTypes : List String) (days : List CalDay) : Except Unit (List String) :=
  dayLoop cfg dl dataTypes days none

/-- The return value the claim describes: one path per pair of a
focus-month day and a requested data_type whose download succeeded, in
order, with nothing for skipped days, failed downloads, or unrecognized
data_type strings. -/
def claimedDownloads (cfg : AcqConfig) (dl : CalDay → String → Option String)
    (dataTypes : List String) (days : List CalDay) : List String :=
  (days.filter fun day => day.month ∈ cfg.focus_months).flatMap fun day =>
    dataTypes.filterMap fun dt =>
      if dt ∈ recognizedTypes then dl day dt else none

/-- C9: each of get_modis_aod, get_modis_cloud and get_era5_data returns
None instead of propagating when the underlying download raises, and on
success returns the string path of the file written under the configured
raw data directory. -/
theorem acquisition_methods_error_contract (cfg : AcqConfig)
    (stamp sat : String) (pl : Option (List Nat)) (dl : DownloadResult) :
    (∀ e, dl = .error e →
      get_modis_aod cfg stamp dl = none ∧
      get_modis_cloud cfg stamp sat dl = none ∧
      get_era5_data cfg stamp pl dl = none) ∧
    (∀ c, dl = .ok c →
      (∃ rest, get_modis_aod cfg stamp dl = some (cfg.raw_dir ++ rest)) ∧
      (∃ rest, get_modis_cloud cfg stamp sat dl = some (cfg.raw_dir ++ rest)) ∧
      (∃ rest, get_era5_data cfg stamp pl dl = some (cfg.raw_dir ++ rest))) := by
  constructor
  · rintro e rfl
    exact ⟨rfl, rfl, rfl⟩
  · rintro c rfl
    refine ⟨⟨"/modis_aod/modis_aod_" ++ stamp ++ ".hdf", ?_⟩,
      ⟨"/modis_cloud/modis_cloud_" ++ sat.toLower ++ "_" ++ stamp ++ ".hdf", ?_⟩, ?_⟩
    · simp [get_modis_aod, String.append_assoc]
    · simp [get_modis_cloud, String.append_assoc]
    · cases pl with
      | some levs =>
        exact ⟨"/era5/era5_pressure_" ++ stamp ++ ".nc",
          by simp [get_era5_data, String.append_assoc]⟩
      | none =>
        exact ⟨"/era5/era5_single_" ++ stamp ++ ".nc",
          by simp [get_era5_data, String.append_assoc]⟩

/-- Witness for C9 at a concrete configuration, date stamp and download
outcome, covering both the raising and the succeeding case. -/
theorem acquisition_methods_error_contract_witness :
    (get_modis_aod ⟨"raw", []⟩ "20200615" (.error "boom") = none ∧
     get_modis_cloud ⟨"raw", []⟩ "20200615" "Terra" (.error "boom") = none ∧
     get_era5_data ⟨"raw", []⟩ "20200615" none (.error "boom") = none) ∧
    (∃ rest, get_modis_aod ⟨"raw", []⟩ "20200615" (.ok "data") =
      some ((AcqConfig.mk "raw" []).raw_dir ++ rest)) :=
  ⟨(acquisition_methods_error_contract ⟨"raw", []⟩ "20200615" "Terra" none
      (.error "boom")).1 "boom" rfl,
   ((acquisition_methods_error_contract ⟨"raw", []⟩ "20200615" "Terra" none
      (.ok "data")).2 "data" rfl).1⟩

/-- C10 counterexample: with one June day in focus, data_types
modis_aod followed by the unrecognized string bogus, and every download
succeeding with path p, the loop re-appends the stale filepath local for
the unrecognized type, so the returned list holds the path twice while
the claim promises exactly one entry for the single successful pair. -/
theorem download_time_series_counterexample :
    download_time_series ⟨"raw", [6]⟩ (fun _ _ => some "p")
        ["modis_aod", "bogus"] [⟨6, 0⟩] = Except.ok ["p", "p"] ∧
    claimedDownloads ⟨"raw", [6]⟩ (fun _ _ => some "p")
        ["modis_aod", "bogus"] [⟨6, 0⟩] = ["p"] ∧
    download_time_series ⟨"raw", [6]⟩ (fun _ _ => some "p")
        ["modis_aod", "bogus"] [⟨6, 0⟩] ≠
      Except.ok (claimedDownloads ⟨"raw", [6]⟩ (fun _ _ => some "p")
        ["modis_aod", "bogus"] [⟨6, 0⟩]) := by
  refine ⟨rfl, rfl, fun h => ?_⟩
  have h1 : download_time_series ⟨"raw", [6]⟩ (fun _ _ => some "p")
      ["modis_aod", "bogus"] [⟨6, 0⟩] = Except.ok ["p", "p"] := rfl
  have h2 : claimedDownloads ⟨"raw", [6]⟩ (fun _ _ => some "p")
      ["modis_aod", "bogus"] [⟨6, 0⟩] = ["p"] := rfl
  rw [h1, h2] at h
  injection h with h3
  exact absurd h3 (by decide)

/-- A recognized data_type always rebinds the filepath local to the
result of the matching download. -/
theorem recognized_step (dl : CalDay → String → Option String) (day : CalDay)
    (dt : String) (st : Option (Option String)) (hdt : dt ∈ recognizedTypes) :
    (if dt = "modis_aod" then some (dl day "modis_aod")
     else if dt = "modis_cloud" then some (dl day "modis_cloud")
     else if dt = "era5" then some (dl day "era5")
     else st) = some (dl day dt) := by
  have hcase : dt = "modis_aod" ∨ dt = "modis_cloud" ∨ dt = "era5" := by
    simpa [recognizedTypes] using hdt
  rcases hcase with h | h | h <;> subst h <;> simp

/-- Unfolds typeLoop when every data_type is recognized. -/
theorem typeLoop_eq_filterMap (dl : CalDay → String → Option String)
    (day : CalDay) :
    ∀ (types : List String), (∀ dt ∈ types, dt ∈ recognizedTypes) →
    ∀ st : Option (Option String), ∃ st',
      typeLoop dl day types st =
        .ok (types.filterMap
          (fun dt => if dt ∈ recognizedTypes then dl day dt else none), st')
  | [], _, st => ⟨st, rfl⟩
  | dt :: rest, hrec, st => by
    have hdt : dt ∈ recognizedTypes := hrec dt (List.mem_cons_self dt rest)
    have hrest : ∀ d ∈ rest, d ∈ recognizedTypes := fun d hd =>
      hrec d (List.mem_cons_of_mem dt hd)
    obtain ⟨st', hst'⟩ := typeLoop_eq_filterMap dl day rest hrest
      (some (dl day dt))
    refine ⟨st', ?_⟩
    simp only [typeLoop, recognized_step dl day dt st hdt, hst',
      List.filterMap_cons, hdt, if_pos]
    cases dl day dt <;> simp

/-- The day loop returns the claimed list from any starting state when
every requested data_type is recognized. -/
theorem dayLoop_eq_claimed (cfg : AcqConfig)
    (dl : CalDay → String → Option String) (dataTypes : List String)
    (hrec : ∀ dt ∈ dataTypes, dt ∈ recognizedTypes) :
    ∀ (days : List CalDay) (st : Option (Option String)),
      dayLoop cfg dl dataTypes days st =
        .ok (claimedDownloads cfg dl dataTypes days)
  | [], _ => rfl
  | day :: days, st => by
    by_cases hm : day.month ∈ cfg.focus_months
    · obtain ⟨st', hst'⟩ := typeLoop_eq_filterMap dl day dataTypes hrec st
      simp only [dayLoop, hm, if_pos, hst',
        dayLoop_eq_claimed cfg dl dataTypes hrec days st']
      simp [claimedDownloads, List.filter_cons, hm]
    · simp only [dayLoop, hm, if_neg, not_false_eq_true,
        dayLoop_eq_claimed cfg dl dataTypes hrec days st]
      simp [claimedDownloads, List.filter_cons, hm]

/-- C10 amended: for every call of download_time_series on a day range
in which every requested data_type is one of the recognized strings,
download attempts happen only for focus-month days and the returned list
holds exactly one path per pair of a focus-month day and a data_type
whose download succeeded, in order; with an unrecognized data_type
string the loop instead re-appends the stale filepath of the previous
iteration (or raises NameError when none exists). -/
theorem download_time_series_recognized (cfg : AcqConfig)
    (dl : CalDay → String → Option String) (dataTypes : List String)
    (days : List CalDay) (hrec : ∀ dt ∈ dataTypes, dt ∈ recognizedTypes) :
    download_time_series cfg dl dataTypes days =
      Except.ok (claimedDownloads cfg dl dataTypes days) :=
  dayLoop_eq_claimed cfg dl dataTypes hrec days none

/-- Witness for the amended C10 at a concrete two-day range with one
skipped month, one failing download and recognized data_types. -/
theorem download_time_series_recognized_witness :
    download_time_series ⟨"raw", [6]⟩
        (fun day dt => if day.idx = 0 ∧ dt = "era5" then none else some "q")
        ["modis_aod", "era5"] [⟨6, 0⟩, ⟨7, 1⟩] =
      Except.ok (claimedDownloads ⟨"raw", [6]⟩
        (fun day dt => if day.idx = 0 ∧ dt = "era5" then none else some "q")
        ["modis_aod", "era5"] [⟨6, 0⟩, ⟨7, 1⟩]) :=
  download_time_series_recognized _ _ _ _ (by decide)

/-- The AOD anomaly series of the scenario in the spec: ten steps with
z-scores 0,0,3,4,5,1,0,0,6,0, all valid. -/
def aodSeriesC7 : List (Option ℚ) :=
  [some 0, some 0, some 3, some 4, some 5, some 1, some 0, some 0, some 6, some 0]

/- ========== Structural lemmas about the gap-bridging grouping ========== -/

theorem groupByGap_cons (g i : Nat) (rest : List Nat) :
    ∃ grp grps, groupByGap g (i :: rest) = (i :: grp) :: grps := by
  cases h : groupByGap g rest with
  | nil => exact ⟨[], [], by simp [groupByGap, h]⟩
  | cons first grps =>
    cases first with
    | nil => exact ⟨[], [], by simp [groupByGap, h]⟩
    | cons j grp =>
      by_cases hj : j ≤ i + g + 1
      · exact ⟨j :: grp, grps, by simp [groupByGap, h, hj]⟩
      · exact ⟨[], (j :: grp) :: grps, by simp [groupByGap, h, hj]⟩

theorem groupByGap_nil (g : Nat) : groupByGap g [] = [] := rfl

theorem groupByGap_singleton (g i : Nat) : groupByGap g [i] = [[i]] := rfl

theorem groupByGap_step (g i x : Nat) (r grp0 : List Nat) (grps0 : List (List Nat))
    (hgr : groupByGap g (x :: r) = (x :: grp0) :: grps0) :
    groupByGap g (i :: x :: r) =
      if x ≤ i + g + 1 then (i :: x :: grp0) :: grps0
      else [i] :: (x :: grp0) :: grps0 := by
  conv_lhs => rw [groupByGap]
  rw [hgr]

theorem flatten_groupByGap (g : Nat) : ∀ l : List Nat, (groupByGap g l).flatten = l
  | [] => rfl
  | i :: rest => by
    cases rest with
    | nil => rfl
    | cons x r =>
      obtain ⟨grp, grps, hgr⟩ := groupByGap_cons g x r
      have ih := flatten_groupByGap g (x :: r)
      rw [hgr] at ih
      rw [groupByGap_step g i x r grp grps hgr]
      by_cases hx : x ≤ i + g + 1
      · rw [if_pos hx]
        simp only [List.flatten_cons] at ih ⊢
        simp [ih]
      · rw [if_neg hx]
        simp only [List.flatten_cons] at ih ⊢
        simp [ih]

theorem ne_nil_of_mem_groupByGap (g : Nat) :
    ∀ (l : List Nat) (grp : List Nat), grp ∈ groupByGap g l → grp ≠ []
  | [], grp, h => by rw [groupByGap_nil] at h; cases h
  | i :: rest, grp, h => by
    cases rest with
    | nil =>
      rw [groupByGap_singleton] at h
      have : grp = [i] := by simpa using h
      simp [this]
    | cons x r =>
      obtain ⟨grp0, grps0, hgr⟩ := groupByGap_cons g x r
      rw [groupByGap_step g i x r grp0 grps0 hgr] at h
      by_cases hx : x ≤ i + g + 1
      · rw [if_pos hx] at h
        rcases List.mem_cons.mp h with h | h
        · simp [h]
        · exact ne_nil_of_mem_groupByGap g (x :: r) grp
            (by rw [hgr]; exact List.mem_cons_of_mem _ h)
      · rw [if_neg hx] at h
        rcases List.mem_cons.mp h with h | h
        · simp [h]
        · exact ne_nil_of_mem_groupByGap g (x :: r) grp (by rw [hgr]; exact h)

theorem chain'_near_of_mem_groupByGap (g : Nat) :
    ∀ (l : List Nat) (grp : List Nat), grp ∈ groupByGap g l →
      grp.Chain' (fun a b => b ≤ a + g + 1)
  | [], grp, h => by rw [groupByGap_nil] at h; cases h
  | i :: rest, grp, h => by
    cases rest with
    | nil =>
      rw [groupByGap_singleton] at h
      have : grp = [i] := by simpa using h
      simp [this]
    | cons x r =>
      obtain ⟨grp0, grps0, hgr⟩ := groupByGap_cons g x r
      have hfirst : (x :: grp0).Chain' (fun a b => b ≤ a + g + 1) :=
        chain'_near_of_mem_groupByGap g (x :: r) (x :: grp0)
          (by rw [hgr]; exact List.mem_cons_self _ _)
      rw [groupByGap_step g i x r grp0 grps0 hgr] at h
      by_cases hx : x ≤ i + g + 1
      · rw [if_pos hx] at h
        rcases List.mem_cons.mp h with h | h
        · subst h
          exact List.chain'_cons.mpr ⟨hx, hfirst⟩
        · exact chain'_near_of_mem_groupByGap g (x :: r) grp
            (by rw [hgr]; exact List.mem_cons_of_mem _ h)
      · rw [if_neg hx] at h
        rcases List.mem_cons.mp h with h | h
        · subst h; simp
        · exact chain'_near_of_mem_groupByGap g (x :: r) grp (by rw [hgr]; exact h)

theorem lift_group (g i : Nat) (rest : List Nat) (grp : List Nat)
    (h : grp ∈ groupByGap g rest) :
    ∃ grp' ∈ groupByGap g (i :: rest), ∀ x ∈ grp, x ∈ grp' := by
  cases rest with
  | nil => rw [groupByGap_nil] at h; cases h
  | cons x r =>
    obtain ⟨grp0, grps0, hgr⟩ := groupByGap_cons g x r
    rw [hgr] at h
    rw [groupByGap_step g i x r grp0 grps0 hgr]
    by_cases hx : x ≤ i + g + 1
    · rw [if_pos hx]
      rcases List.mem_cons.mp h with h1 | h1
      · exact ⟨i :: x :: grp0, List.mem_cons_self _ _,
          fun y hy => by rw [h1] at hy; exact List.mem_cons_of_mem i hy⟩
      · exact ⟨grp, List.mem_cons_of_mem _ h1, fun y hy => hy⟩
    · rw [if_neg hx]
      exact ⟨grp, List.mem_cons_of_mem _ h, fun y hy => hy⟩

theorem mem_firstGroup (g : Nat) :
    ∀ (rest : List Nat) (i : Nat), (i :: rest).Pairwise (· < ·) →
      ∀ y ∈ i :: rest, y ≤ i + g + 1 →
      ∀ grp grps, groupByGap g (i :: rest) = grp :: grps → y ∈ grp
  | [], i, _, y, hy, _, grp, grps, heq => by
    have hyi : y = i := by simpa using hy
    rw [groupByGap_singleton] at heq
    have : [i] = grp := (List.cons.injEq [i] [] grp grps ▸ heq).1
    simp [← this, hyi]
  | x :: r, i, hpw, y, hy, hle, grp, grps, heq => by
    obtain ⟨grp0, grps0, hgr⟩ := groupByGap_cons g x r
    have hix : i < x := (List.pairwise_cons.mp hpw).1 x (List.mem_cons_self _ _)
    have hxy : ∀ z ∈ x :: r, x ≤ z := by
      intro z hz
      rcases List.mem_cons.mp hz with h | h
      · exact le_of_eq h.symm
      · exact le_of_lt ((List.pairwise_cons.mp (List.pairwise_cons.mp hpw).2).1 z h)
    rcases List.mem_cons.mp hy with hyi | hyr
    · subst hyi
      obtain ⟨grp1, grps1, hgr1⟩ := groupByGap_cons g y (x :: r)
      rw [hgr1] at heq
      have : y :: grp1 = grp := (List.cons.injEq _ _ grp grps ▸ heq).1
      rw [← this]
      exact List.mem_cons_self _ _
    · have hcond : x ≤ i + g + 1 := le_trans (hxy y hyr) hle
      rw [groupByGap_step g i x r grp0 grps0 hgr, if_pos hcond] at heq
      have hgrpeq : i :: x :: grp0 = grp := (List.cons.injEq _ _ grp grps ▸ heq).1
      rw [← hgrpeq]
      have hyfirst : y ∈ x :: grp0 :=
        mem_firstGroup g r x (List.pairwise_cons.mp hpw).2 y hyr
          (le_trans hle (by omega)) (x :: grp0) grps0 hgr
      exact List.mem_cons_of_mem i hyfirst

theorem headI_mem_of_ne_nil {α : Type} [Inhabited α] :
    ∀ {l : List α}, l ≠ [] → l.headI ∈ l
  | [], h => absurd rfl h
  | _ :: _, _ => List.mem_cons_self _ _

theorem eq_of_mem_flatten_nodup {α : Type} :
    ∀ (L : List (List α)), L.flatten.Nodup →
      ∀ g1 ∈ L, ∀ g2 ∈ L, ∀ x, x ∈ g1 → x ∈ g2 → g1 = g2
  | [], _, g1, h1, _, _, _, _, _ => absurd h1 (List.not_mem_nil g1)
  | l :: L, hnd, g1, h1, g2, h2, x, hx1, hx2 => by
    rw [List.flatten_cons, List.nodup_append] at hnd
    obtain ⟨hl, hL, hdisj⟩ := hnd
    rcases List.mem_cons.mp h1 with e1 | m1 <;> rcases List.mem_cons.mp h2 with e2 | m2
    · rw [e1, e2]
    · exact absurd (List.mem_flatten.mpr ⟨g2, m2, hx2⟩) fun hc =>
        hdisj (e1 ▸ hx1) hc
    · exact absurd (List.mem_flatten.mpr ⟨g1, m1, hx1⟩) fun hc =>
        hdisj (e2 ▸ hx2) hc
    · exact eq_of_mem_flatten_nodup L hL g1 m1 g2 m2 x hx1 hx2

/-- Every nonempty near-chained sublist of a strictly increasing list is
contained in a single gap-bridged group of that list. -/
theorem exists_group_superset (g : Nat) :
    ∀ (l : List Nat), l.Pairwise (· < ·) →
      ∀ S : List Nat, S ≠ [] → S.Sublist l →
        S.Chain' (fun a b => b ≤ a + g + 1) →
        ∃ grp ∈ groupByGap g l, ∀ x ∈ S, x ∈ grp
  | [], _, S, hne, hsub, _ => absurd (List.sublist_nil.mp hsub) hne
  | i :: rest, hpw, S, hne, hsub, hchain => by
    cases hsub with
    | cons _ htail =>
      obtain ⟨grp, hgrp, hsup⟩ :=
        exists_group_superset g rest (List.pairwise_cons.mp hpw).2 S hne htail hchain
      obtain ⟨grp', hgrp', hsup'⟩ := lift_group g i rest grp hgrp
      exact ⟨grp', hgrp', fun x hx => hsup' x (hsup x hx)⟩
    | cons₂ _ htail =>
      rename_i S1
      cases S1 with
      | nil =>
        obtain ⟨grp0, grps0, hgr⟩ := groupByGap_cons g i rest
        refine ⟨i :: grp0, by rw [hgr]; exact List.mem_cons_self _ _, ?_⟩
        intro x hx
        have : x = i := by simpa using hx
        rw [this]
        exact List.mem_cons_self _ _
      | cons j S2 =>
        have hrest_ne : rest ≠ [] := by
          intro hc
          rw [hc] at htail
          exact absurd (List.sublist_nil.mp htail) (by simp)
        obtain ⟨x, r, rfl⟩ := List.exists_cons_of_ne_nil hrest_ne
        have hji : j ≤ i + g + 1 := (List.chain'_cons.mp hchain).1
        have hchain2 : (j :: S2).Chain' (fun a b => b ≤ a + g + 1) :=
          (List.chain'_cons.mp hchain).2
        obtain ⟨grp, hgrp, hsup⟩ :=
          exists_group_superset g (x :: r) (List.pairwise_cons.mp hpw).2
            (j :: S2) (by simp) htail hchain2
        obtain ⟨grp0, grps0, hgr⟩ := groupByGap_cons g x r
        have hix : i < x := (List.pairwise_cons.mp hpw).1 x (List.mem_cons_self _ _)
        have hjxr : j ∈ x :: r := htail.subset (List.mem_cons_self _ _)
        have hjfirst : j ∈ x :: grp0 :=
          mem_firstGroup g r x (List.pairwise_cons.mp hpw).2 j hjxr
            (by omega) (x :: grp0) grps0 hgr
        have hndflat : ((groupByGap g (x :: r)).flatten).Nodup := by
          rw [flatten_groupByGap]
          exact ((List.pairwise_cons.mp hpw).2).imp ne_of_lt
        have hgrpeq : grp = x :: grp0 :=
          eq_of_mem_flatten_nodup (groupByGap g (x :: r)) hndflat grp hgrp
            (x :: grp0) (by rw [hgr]; exact List.mem_cons_self _ _) j
            (hsup j (List.mem_cons_self _ _)) hjfirst
        have hxj : x ≤ j := by
          rcases List.mem_cons.mp (hgrpeq ▸ hsup j (List.mem_cons_self _ _)) with h | h
          · exact le_of_eq h.symm
          · have hc : (x :: grp0).Pairwise (· < ·) :=
              List.Pairwise.sublist
                (by rw [← flatten_groupByGap g (x :: r), hgr]
                    exact List.sublist_flatten_of_mem (List.mem_cons_self _ _))
                (List.pairwise_cons.mp hpw).2
            exact le_of_lt ((List.pairwise_cons.mp hc).1 j h)
        refine ⟨i :: x :: grp0,
          by rw [groupByGap_step g i x r grp0 grps0 hgr, if_pos (by omega)]
             exact List.mem_cons_self _ _, ?_⟩
        intro y hy
        rcases List.mem_cons.mp hy with h | h
        · rw [h]; exact List.mem_cons_self _ _
        · exact List.mem_cons_of_mem i (hgrpeq ▸ hsup y h)

theorem mem_keptIndices_of_chain (g d : Nat) (l S : List Nat)
    (hl : l.Pairwise (· < ·)) (hS : S.Sublist l)
    (hchain : S.Chain' (fun a b => b ≤ a + g + 1)) (hlen : d ≤ S.length) :
    ∀ x ∈ S, x ∈ keptIndices g d l := by
  intro x hx
  have hne : S ≠ [] := by
    intro hc; rw [hc] at hx; cases hx
  obtain ⟨grp, hgrp, hsup⟩ := exists_group_superset g l hl S hne hS hchain
  have hSnd : S.Nodup := hS.nodup (hl.imp ne_of_lt)
  have hlen2 : S.length ≤ grp.length :=
    (hSnd.subperm fun y hy => hsup y hy).length_le
  refine List.mem_flatten.mpr ⟨grp, ?_, hsup x hx⟩
  exact List.mem_filter.mpr ⟨hgrp, by simpa using le_trans hlen hlen2⟩

theorem keptIndices_subset_of_sublist (g d : Nat) (l1 l2 : List Nat)
    (hl1 : l1.Pairwise (· < ·)) (h12 : l2.Sublist l1) :
    ∀ x ∈ keptIndices g d l2, x ∈ keptIndices g d l1 := by
  intro x hx
  obtain ⟨grp, hgrp, hxg⟩ := List.mem_flatten.mp hx
  have hgrp2 : grp ∈ groupByGap g l2 := List.mem_of_mem_filter hgrp
  have hlen : d ≤ grp.length := by
    have := (List.mem_filter.mp hgrp).2
    simpa using this
  have hsub2 : grp.Sublist l2 := by
    rw [← flatten_groupByGap g l2]
    exact List.sublist_flatten_of_mem hgrp2
  exact mem_keptIndices_of_chain g d l1 grp hl1 (hsub2.trans h12)
    (chain'_near_of_mem_groupByGap g l2 grp hgrp2) hlen x hxg

theorem flatten_sublist_flatten {α : Type} {L1 L2 : List (List α)}
    (h : L1.Sublist L2) : L1.flatten.Sublist L2.flatten := by
  induction h with
  | slnil => exact List.Sublist.refl _
  | cons grp _ ih =>
    exact ih.trans (by rw [List.flatten_cons]; exact List.sublist_append_right _ _)
  | cons₂ grp _ ih =>
    rw [List.flatten_cons, List.flatten_cons]
    exact ih.append_left grp

theorem keptIndices_sublist (g d : Nat) (l : List Nat) :
    (keptIndices g d l).Sublist l := by
  have h2 : (keptIndices g d l).Sublist ((groupByGap g l).flatten) :=
    flatten_sublist_flatten (List.filter_sublist _)
  rw [flatten_groupByGap] at h2
  exact h2

/- ===================== Monotonicity in the threshold ===================== -/

theorem exceedIndices_pairwise [LinearOrder α] (a : List (Option α)) (t : α) :
    (exceedIndices a t).Pairwise (· < ·) :=
  List.Pairwise.sublist (List.filter_sublist _) (List.pairwise_lt_range _)

theorem exceedIndices_anti [LinearOrder α] (a : List (Option α)) {t1 t2 : α}
    (h : t1 ≤ t2) : (exceedIndices a t2).Sublist (exceedIndices a t1) := by
  refine List.monotone_filter_right _ fun i hi => ?_
  rcases hv : a.getD i none with _ | v
  · rw [hv] at hi
    exact Bool.noConfusion hi
  · rw [hv] at hi
    exact decide_eq_true (le_trans h (of_decide_eq_true hi))

theorem totalDuration_detect [LinearOrder α] (a : List (Option α)) (t : α)
    (d g : Nat) :
    totalDuration (DustEventDetector.detect a t d g) =
      (keptIndices g d (exceedIndices a t)).length := by
  unfold totalDuration DustEventDetector.detect keptIndices
  rw [List.length_flatten, List.map_map]
  have h1 : ((fun e : DustEvent α => e.duration) ∘ fun p : Nat × List Nat =>
      mkEvent a p.1 p.2) = (List.length ∘ Prod.snd) := rfl
  rw [h1, ← List.map_map, List.enum_map_snd]

/-- C2 counterexample: on the all-valid series 3,3,1,1,1,3,3 with
min_duration 2 and max_gap 1, raising the threshold from 1 to 2 splits
the single merged event into two qualifying events, so the number of
detected events increases from 1 to 2. -/
theorem detect_count_not_antitone :
    (1 : ℤ) ≤ 2 ∧
    (DustEventDetector.detect
      [some (3:ℤ), some 3, some 1, some 1, some 1, some 3, some 3] 1 2 1).length = 1 ∧
    (DustEventDetector.detect
      [some (3:ℤ), some 3, some 1, some 1, some 1, some 3, some 3] 2 2 1).length = 2 ∧
    ¬ ((DustEventDetector.detect
        [some (3:ℤ), some 3, some 1, some 1, some 1, some 3, some 3] 2 2 1).length ≤
       (DustEventDetector.detect
        [some (3:ℤ), some 3, some 1, some 1, some 1, some 3, some 3] 1 2 1).length) := by
  decide

/-- C2 amended: raising the threshold with fixed min_duration and
max_gap never increases the total duration of the detected events,
though it can increase their number by splitting a merged event. -/
theorem detect_totalDuration_antitone [LinearOrder α] (a : List (Option α))
    {t1 t2 : α} (d g : Nat) (h : t1 ≤ t2) :
    totalDuration (DustEventDetector.detect a t2 d g) ≤
      totalDuration (DustEventDetector.detect a t1 d g) := by
  rw [totalDuration_detect, totalDuration_detect]
  have hsub := exceedIndices_anti a h
  have hp1 := exceedIndices_pairwise a t1
  have hmono := keptIndices_subset_of_sublist g d _ _ hp1 hsub
  have hnd : (keptIndices g d (exceedIndices a t2)).Nodup :=
    ((keptIndices_sublist g d _).trans hsub).nodup (hp1.imp ne_of_lt)
  exact (hnd.subperm fun x hx => hmono x hx).length_le

/-- Witness for the amended C2 on a concrete integer series. -/
theorem detect_totalDuration_antitone_witness :
    (1 : ℤ) ≤ 2 ∧
    totalDuration (DustEventDetector.detect
      [some (3:ℤ), some 3, some 1, some 1, some 1, some 3, some 3] 2 2 1) ≤
    totalDuration (DustEventDetector.detect
      [some (3:ℤ), some 3, some 1, some 1, some 1, some 3, some 3] 1 2 1) :=
  ⟨by decide, detect_totalDuration_antitone
    [some (3:ℤ), some 3, some 1, some 1, some 1, some 3, some 3] 2 1 (by decide)⟩

/-- C7: on the ten-step series with z-scores 0,0,3,4,5,1,0,0,6,0 and
configuration threshold 2.5, min_duration 2, max_gap 1, detect returns
exactly one event spanning indices 2 through 4, and no event covering
index 8 (a single exceedance discarded as shorter than min_duration). -/
theorem detect_scenario_single_event :
    (2.5 : ℚ) = mkRat 5 2 ∧
    DustEventDetector.detect aodSeriesC7 (mkRat 5 2) 2 1 =
      [{ event_id := 0, start_time := 2, end_time := 4, duration := 3,
         peak_magnitude := some 5, truncated := false }] ∧
    (DustEventDetector.detect aodSeriesC7 (mkRat 5 2) 2 1).all
      (fun e => !(decide (e.start_time ≤ 8) && decide (8 ≤ e.end_time))) = true := by
  refine ⟨?_, by decide, by decide⟩
  norm_num [Rat.mkRat_eq_div]

/- ===================== Determinism and output ordering =================== -/

/-- C4: two invocations of detect on identical input and configuration
return identical outputs, the events carry event_id equal to their
position, and the list is strictly ascending in start_time; hence the
event_id assignment and the ordering are stable across re-runs. -/
theorem detect_deterministic [LinearOrder α] (a : List (Option α)) (t : α)
    (d g : Nat) :
    DustEventDetector.detect a t d g = DustEventDetector.detect a t d g ∧
    (∀ i, ∀ h : i < (DustEventDetector.detect a t d g).length,
      (DustEventDetector.detect a t d g)[i].event_id = i) ∧
    (DustEventDetector.detect a t d g).Pairwise
      (fun e1 e2 => e1.start_time < e2.start_time) := by
  refine ⟨rfl, ?_, ?_⟩
  · intro i h
    unfold DustEventDetector.detect at h ⊢
    rw [List.getElem_map, List.getElem_enum]
    rfl
  · have hflat : ((groupByGap g (exceedIndices a t)).flatten).Pairwise (· < ·) := by
      rw [flatten_groupByGap]
      exact exceedIndices_pairwise a t
    have hgroups := (List.pairwise_flatten.mp hflat).2
    have hkept : (keptGroups g d (exceedIndices a t)).Pairwise
        (fun g1 g2 => ∀ x ∈ g1, ∀ y ∈ g2, x < y) :=
      List.Pairwise.sublist (List.filter_sublist _) hgroups
    have hheads : (keptGroups g d (exceedIndices a t)).Pairwise
        (fun g1 g2 => g1.headI < g2.headI) := by
      refine hkept.imp_of_mem ?_
      intro g1 g2 h1 h2 hrel
      have hn1 : g1 ≠ [] := ne_nil_of_mem_groupByGap g _ g1 (List.mem_of_mem_filter h1)
      have hn2 : g2 ≠ [] := ne_nil_of_mem_groupByGap g _ g2 (List.mem_of_mem_filter h2)
      exact hrel _ (headI_mem_of_ne_nil hn1) _ (headI_mem_of_ne_nil hn2)
    unfold DustEventDetector.detect
    rw [← List.enum_map_snd (keptGroups g d (exceedIndices a t))] at hheads
    have henum := List.pairwise_map.mp hheads
    exact List.pairwise_map.mpr (henum.imp fun hpq => hpq)

/-- Witness for C4 on a concrete integer series with two events. -/
theorem detect_deterministic_witness :
    0 < (DustEventDetector.detect
      [some (3:ℤ), some 3, some 1, some 1, some 1, some 3, some 3] 2 2 1).length ∧
    ((DustEventDetector.detect
      [some (3:ℤ), some 3, some 1, some 1, some 1, some 3, some 3] 2 2 1).get
        ⟨0, by decide⟩).event_id = 0 :=
  ⟨by decide, (detect_deterministic
    [some (3:ℤ), some 3, some 1, some 1, some 1, some 3, some 3] 2 2 1).2.1 0
    (by decide)⟩

/- ===================== Configuration validation ========================== -/

/-- Error raised when detector parameters are missing or non-positive. -/
inductive ConfigurationError where
  | invalidParams : ConfigurationError
  deriving Repr, DecidableEq

/-- Detector configuration with optional fields, mirroring parameters
that may be missing. -/
structure DetectorConfig where
  threshold : Option ℚ
  min_duration : Option Int
  max_gap : Option Int
  deriving Repr, DecidableEq

/-- A configuration is valid when all three parameters are present and
strictly positive. -/
def validConfig (c : DetectorConfig) : Bool :=
  match c.threshold, c.min_duration, c.max_gap with
  | some t, some d, some g => decide (0 < t) && decide (0 < d) && decide (0 < g)
  | _, _, _ => false

namespace DustEventDetector

/-- Modelled from the spec: the checked entry point of the detector
(event_detection module absent from the source tree).  The three
parameters are validated before the series is touched, raising
ConfigurationError exactly when one is missing or non-positive; data
gaps are ordinary data for detect and never raise. -/
def detectChecked (c : DetectorConfig) (a : List (Option ℚ)) :
    Except ConfigurationError (List (DustEvent ℚ)) :=
  match c.threshold, c.min_duration, c.max_gap with
  | some t, some d, some g =>
    if 0 < t ∧ 0 < d ∧ 0 < g then .ok (detect a t d.toNat g.toNat)
    else .error .invalidParams
  | _, _, _ => .error .invalidParams

end DustEventDetector

theorem detectChecked_isOk (c : DetectorConfig) (a : List (Option ℚ)) :
    (DustEventDetector.detectChecked c a).isOk = validConfig c := by
  obtain ⟨ht, hd, hg⟩ := c
  cases ht <;> cases hd <;> cases hg <;>
    simp only [DustEventDetector.detectChecked, validConfig, Except.isOk,
      Except.toBool]
  rename_i t d g
  by_cases h1 : 0 < t <;> by_cases h2 : 0 < d <;> by_cases h3 : 0 < g <;>
    simp [h1, h2, h3]

/-- C5: detectChecked raises ConfigurationError exactly when threshold,
min_duration or max_gap is missing or non-positive, the check happens
before any computation on the data (the outcome is the same for every
series), and invalid or missing series entries never raise. -/
theorem detectChecked_error_iff (c : DetectorConfig) (a : List (Option ℚ)) :
    ((DustEventDetector.detectChecked c a).isOk = validConfig c) ∧
    ∀ b : List (Option ℚ),
      (DustEventDetector.detectChecked c a).isOk =
        (DustEventDetector.detectChecked c b).isOk :=
  ⟨detectChecked_isOk c a,
   fun b => (detectChecked_isOk c a).trans (detectChecked_isOk c b).symm⟩

/- ===================== TemporalAnalyzer (modelled) ======================= -/

/-- Per-record fit outcome of the temporal analysis, from the error
taxonomy of the spec. -/
inductive FitQuality where
  | ok : FitQuality
  | fit_failed : FitQuality
  | insufficient_data : FitQuality
  | truncated : FitQuality
  deriving Repr, DecidableEq

/-- PersistenceRecord from the data model of the spec: one record per
event, variable and lag, with nullable decay fit parameters A0 and tau
shared by the records of the same event and variable pair. -/
structure PersistenceRecord where
  event_id : Nat
  var_name : String
  lag : Nat
  anomaly_value : ℚ
  sample_count : Nat
  decay_fit_params : Option (ℚ × ℚ)
  fit_quality : FitQuality
  deriving Repr, DecidableEq

/-- Modelled from the spec: discrete surrogate of the exponential decay
curve A0 times exp(-t/tau): one step multiplies by tau/(tau+1). -/
def decayAt (tau : ℚ) (t : Nat) : ℚ := (tau / (tau + 1)) ^ t

/-- Sum of squared residuals of the decay curve with amplitude A0 and
time constant tau against the lag points. -/
def sse (A0 : ℚ) (pts : List (Nat × ℚ)) (tau : ℚ) : ℚ :=
  (pts.map fun p => (p.2 - A0 * decayAt tau p.1) ^ 2).sum

/-- First candidate minimizing f, ties resolved toward the later
position only when strictly better, so the scan is deterministic. -/
def pickMin (f : ℚ → ℚ) : List ℚ → Option ℚ
  | [] => none
  | c :: cs =>
    match pickMin f cs with
    | none => some c
    | some b => if f b < f c then some b else some c

theorem pickMin_mem (f : ℚ → ℚ) :
    ∀ (l : List ℚ) (tau : ℚ), pickMin f l = some tau → tau ∈ l
  | [], tau, h => by cases h
  | c :: cs, tau, h => by
    rcases hcs : pickMin f cs with _ | b
    · simp only [pickMin, hcs] at h
      cases h
      exact List.mem_cons_self _ _
    · simp only [pickMin, hcs] at h
      by_cases hlt : f b < f c
      · rw [if_pos hlt] at h
        cases h
        exact List.mem_cons_of_mem _ (pickMin_mem f cs tau hcs)
      · rw [if_neg hlt] at h
        cases h
        exact List.mem_cons_self _ _

/-- Modelled from the spec: the nonlinear least-squares decay fit of the
temporal_analysis module (absent from the source tree).  With fewer than
min_points_for_fit valid lag points the fit is not attempted
(insufficient_data); otherwise the bounded optimizer is modelled as a
search over the positive integer time constants 1..maxIter, accepting
the best candidate when its residual is within tol (quality ok) and
failing otherwise (fit_failed); the model family of the spec contains
only curves with tau strictly positive. -/
def fitDecay (minPts maxIter : Nat) (tol : ℚ) (pts : List (Nat × ℚ)) :
    Option (ℚ × ℚ) × FitQuality :=
  if pts.length < minPts then (none, .insufficient_data)
  else
    match pickMin (sse ((pts.map Prod.snd).headI) pts)
        ((List.range maxIter).map fun k => ((k + 1 : Nat) : ℚ)) with
    | none => (none, .fit_failed)
    | some tau =>
      if sse ((pts.map Prod.snd).headI) pts tau ≤ tol then
        (some ((pts.map Prod.snd).headI, tau), .ok)
      else (none, .fit_failed)

namespace TemporalAnalyzer

/-- Valid spatial samples of a variable at one timestep: invalid entries
are dropped, never synthesized. -/
def validSamples (series : String → Nat → List (Option ℚ)) (v : String)
    (time : Nat) : List ℚ :=
  (series v time).filterMap id

/-- Modelled from the spec: the valid lag points of one event and
variable pair: lag and spatially averaged anomaly for every lag step of
the window with at least one valid sample. -/
def lagPoints (series : String → Nat → List (Option ℚ)) (e : DustEvent ℚ)
    (v : String) (lagWindow : Nat) : List (Nat × ℚ) :=
  (List.range (lagWindow + 1)).filterMap fun lag =>
    match validSamples series v (e.end_time + lag) with
    | [] => none
    | x :: xs => some (lag, (x :: xs).sum / ((x :: xs).length : ℚ))

/-- The decay fit attached to the records of one event and variable
pair: truncated events are excluded from fitting but keep their raw
records, flagged truncated. -/
def fitFor (series : String → Nat → List (Option ℚ)) (e : DustEvent ℚ)
    (v : String) (lagWindow minPts maxIter : Nat) (tol : ℚ) :
    Option (ℚ × ℚ) × FitQuality :=
  if e.truncated then (none, FitQuality.truncated)
  else fitDecay minPts maxIter tol (lagPoints series e v lagWindow)

/-- Modelled from the spec: TemporalAnalyzer.analyze (temporal_analysis
module absent from the source tree).  For each event, each target
variable and each lag step of the window from the event end, a
PersistenceRecord is emitted when the lag has at least one valid spatial
sample, with sample_count the number of contributing samples; lags with
no valid sample are skipped, not synthesized. -/
def analyze (events : List (DustEvent ℚ)) (vars : List String)
    (series : String → Nat → List (Option ℚ))
    (lagWindow minPts maxIter : Nat) (tol : ℚ) : List PersistenceRecord :=
  events.flatMap fun e =>
    vars.flatMap fun v =>
      (List.range (lagWindow + 1)).filterMap fun lag =>
        match validSamples series v (e.end_time + lag) with
        | [] => none
        | x :: xs =>
          some { event_id := e.event_id
                 var_name := v
                 lag := lag
                 anomaly_value := (x :: xs).sum / ((x :: xs).length : ℚ)
                 sample_count := (x :: xs).length
                 decay_fit_params := (fitFor series e v lagWindow minPts maxIter tol).1
                 fit_quality := (fitFor series e v lagWindow minPts maxIter tol).2 }

end TemporalAnalyzer

theorem length_filterMap_eq_countP {α β : Type} (f : α → Option β) :
    ∀ l : List α, (l.filterMap f).length = l.countP fun a => (f a).isSome
  | [] => rfl
  | a :: l => by
    rw [List.filterMap_cons, List.countP_cons]
    cases hf : f a <;>
      simp [length_filterMap_eq_countP f l, hf]

/-- C3: the number of PersistenceRecords returned by analyze equals the
number of triples of an event, a target variable, and a lag step of the
window having at least one valid sample; lag steps with no valid sample
contribute no record. -/
theorem analyze_record_count (events : List (DustEvent ℚ))
    (vars : List String) (series : String → Nat → List (Option ℚ))
    (lagWindow minPts maxIter : Nat) (tol : ℚ) :
    (TemporalAnalyzer.analyze events vars series lagWindow minPts maxIter tol).length =
      (events.map fun e =>
        (vars.map fun v =>
          (List.range (lagWindow + 1)).countP fun lag =>
            !(TemporalAnalyzer.validSamples series v (e.end_time + lag)).isEmpty).sum).sum := by
  unfold TemporalAnalyzer.analyze
  rw [List.length_flatMap]
  refine congrArg List.sum (List.map_congr_left fun e _ => ?_)
  simp only [Function.comp_apply]
  rw [List.length_flatMap]
  refine congrArg List.sum (List.map_congr_left fun v _ => ?_)
  simp only [Function.comp_apply]
  rw [length_filterMap_eq_countP]
  refine List.countP_congr fun lag _ => ?_
  rcases hval : TemporalAnalyzer.validSamples series v (e.end_time + lag) with _ | ⟨x, xs⟩ <;>
    simp [hval]

/-- C6: every PersistenceRecord of analyze whose fit_quality is neither
fit_failed nor insufficient_data carries a strictly positive fitted time
constant tau in its decay fit parameters whenever they are present. -/
theorem analyze_tau_pos (events : List (DustEvent ℚ)) (vars : List String)
    (series : String → Nat → List (Option ℚ))
    (lagWindow minPts maxIter : Nat) (tol : ℚ) :
    ∀ r ∈ TemporalAnalyzer.analyze events vars series lagWindow minPts maxIter tol,
      r.fit_quality ≠ FitQuality.fit_failed →
      r.fit_quality ≠ FitQuality.insufficient_data →
      ∀ A0 tau, r.decay_fit_params = some (A0, tau) → 0 < tau := by
  intro r hr hq1 hq2 A0 tau hp
  obtain ⟨e, he, hr⟩ := List.mem_flatMap.mp hr
  obtain ⟨v, hv, hr⟩ := List.mem_flatMap.mp hr
  obtain ⟨lag, hlag, hsome⟩ := List.mem_filterMap.mp hr
  rcases hval : TemporalAnalyzer.validSamples series v (e.end_time + lag) with _ | ⟨x, xs⟩
  · rw [hval] at hsome
    cases hsome
  · rw [hval] at hsome
    have hparams : (TemporalAnalyzer.fitFor series e v lagWindow minPts maxIter tol).1 =
        some (A0, tau) := by
      have h2 := congrArg PersistenceRecord.decay_fit_params (Option.some.inj hsome)
      rw [← hp]
      exact h2
    have hqual : r.fit_quality =
        (TemporalAnalyzer.fitFor series e v lagWindow minPts maxIter tol).2 := by
      have h2 := congrArg PersistenceRecord.fit_quality (Option.some.inj hsome)
      exact h2.symm
    rw [hqual] at hq1 hq2
    unfold TemporalAnalyzer.fitFor at hparams hq1 hq2
    by_cases htr : e.truncated
    · rw [if_pos htr] at hparams
      cases hparams
    · rw [if_neg htr] at hparams hq1 hq2
      unfold fitDecay at hparams hq1 hq2
      by_cases hlen : (TemporalAnalyzer.lagPoints series e v lagWindow).length < minPts
      · rw [if_pos hlen] at hparams
        cases hparams
      · rw [if_neg hlen] at hparams hq1 hq2
        rcases hpm : pickMin
            (sse (((TemporalAnalyzer.lagPoints series e v lagWindow).map Prod.snd).headI)
              (TemporalAnalyzer.lagPoints series e v lagWindow))
            ((List.range maxIter).map fun k => ((k + 1 : Nat) : ℚ)) with _ | tau0
        · simp only [hpm] at hparams
          cases hparams
        · simp only [hpm] at hparams hq1 hq2
          by_cases hsse : sse
              (((TemporalAnalyzer.lagPoints series e v lagWindow).map Prod.snd).headI)
              (TemporalAnalyzer.lagPoints series e v lagWindow) tau0 ≤ tol
          · rw [if_pos hsse] at hparams
            have hpair := Option.some.inj hparams
            have htau : tau0 = tau := congrArg Prod.snd hpair
            have hmem := pickMin_mem _ _ _ hpm
            obtain ⟨k, _, hk⟩ := List.mem_map.mp hmem
            rw [← htau, ← hk]
            exact_mod_cast Nat.succ_pos k
          · rw [if_neg hsse] at hparams
            cases hparams

/-- Concrete non-truncated event for the analyzer witness. -/
def eW : DustEvent ℚ := ⟨0, 0, 0, 1, none, false⟩

/-- Concrete single-sample series for the analyzer witness. -/
def seriesW : String → Nat → List (Option ℚ) := fun _ _ => [some 0]

/-- The record produced by analyze on the witness input. -/
def recW : PersistenceRecord := ⟨0, "v", 0, 0, 1, some (0, 1), FitQuality.ok⟩

/-- Witness for C6: on a concrete one-event, one-variable, one-lag run
the analyzer emits a record with quality ok, and the theorem yields the
positivity of its fitted time constant. -/
theorem analyze_tau_pos_witness :
    recW ∈ TemporalAnalyzer.analyze [eW] ["v"] seriesW 0 1 1 0 ∧ (0 : ℚ) < 1 := by
  have hm : recW ∈ TemporalAnalyzer.analyze [eW] ["v"] seriesW 0 1 1 0 := by
    simp [TemporalAnalyzer.analyze, TemporalAnalyzer.validSamples,
      TemporalAnalyzer.fitFor, TemporalAnalyzer.lagPoints, fitDecay, pickMin,
      sse, decayAt, eW, seriesW, recW, List.range_succ, List.range_zero,
      List.filterMap_cons]
  exact ⟨hm, analyze_tau_pos [eW] ["v"] seriesW 0 1 1 0 recW hm
    (by decide) (by decide) 0 1 rfl⟩

/- =================== StatisticalAnalyzer (modelled) ====================== -/

/-- Error signaled when too few qualifying events support a test. -/
inductive InsufficientSampleError where
  | tooFewEvents (found required : Nat) : InsufficientSampleError
  deriving Repr, DecidableEq

/-- StatisticalTestResult from the data model of the spec. -/
structure StatTestResult where
  statistic_name : String
  observed_statistic : ℚ
  p_value : ℚ
  sample_size : Nat
  deriving Repr, DecidableEq

/-- Configuration of the statistical stage. -/
structure StatConfig where
  n_resamples : Nat
  min_event_count : Nat
  min_duration : Nat
  deriving Repr, DecidableEq

/-- Modelled from the spec: start positions of candidate null windows of
length min_duration that fit inside the series and overlap no detected
event. -/
def validWindowStarts (seriesLen minDur : Nat) (events : List (DustEvent ℚ)) :
    List Nat :=
  (List.range (seriesLen + 1 - minDur)).filter fun p =>
    events.all fun e => decide (p + minDur ≤ e.start_time) || decide (e.end_time < p)

namespace StatisticalAnalyzer

/-- Modelled from the spec: StatisticalAnalyzer.test_significance
(statistical_analysis module absent from the source tree).  One entry is
returned per requested test, so a failure is signaled per test and never
suppressed; a test fails with InsufficientSampleError when the number of
qualifying events is below the configured minimum; otherwise the result
reports sample_size as the number of resamples actually achieved, namely
n_resamples capped by the number of valid non-overlapping null windows,
so exhaustion shrinks the effective sample instead of raising.  The
aggregate statistic is an abstract configuration choice and the null
values are drawn through the nullStat oracle. -/
def test_significance (events : List (DustEvent ℚ)) (seriesLen : Nat)
    (cfg : StatConfig) (tests : List (String × (List (DustEvent ℚ) → ℚ)))
    (nullStat : Nat → ℚ) :
    List (Except InsufficientSampleError StatTestResult) :=
  tests.map fun test =>
    if events.length < cfg.min_event_count then
      .error (.tooFewEvents events.length cfg.min_event_count)
    else
      .ok { statistic_name := test.1
            observed_statistic := test.2 events
            p_value := mkRat
              (((List.range (min cfg.n_resamples
                  (validWindowStarts seriesLen cfg.min_duration events).length)).countP
                fun i => decide (|test.2 events| ≤ |nullStat i|)) : Int)
              (min cfg.n_resamples
                (validWindowStarts seriesLen cfg.min_duration events).length)
            sample_size := min cfg.n_resamples
              (validWindowStarts seriesLen cfg.min_duration events).length }

end StatisticalAnalyzer

/-- C8: test_significance yields one outcome per requested test; an
outcome is an InsufficientSampleError exactly when the qualifying events
are fewer than the configured minimum, and a successful outcome reports
sample_size equal to n_resamples capped by the available non-overlapping
null windows, hence never above n_resamples: exhausting the windows
reduces the effective sample size instead of raising. -/
theorem test_significance_contract (events : List (DustEvent ℚ))
    (seriesLen : Nat) (cfg : StatConfig)
    (tests : List (String × (List (DustEvent ℚ) → ℚ))) (nullStat : Nat → ℚ) :
    (StatisticalAnalyzer.test_significance events seriesLen cfg tests nullStat).length =
      tests.length ∧
    ∀ r ∈ StatisticalAnalyzer.test_significance events seriesLen cfg tests nullStat,
      ((∃ err, r = .error err) ↔ events.length < cfg.min_event_count) ∧
      (∀ res, r = .ok res →
        res.sample_size = min cfg.n_resamples
          (validWindowStarts seriesLen cfg.min_duration events).length ∧
        res.sample_size ≤ cfg.n_resamples) := by
  refine ⟨List.length_map _ _, ?_⟩
  intro r hr
  obtain ⟨test, _, hrt⟩ := List.mem_map.mp hr
  by_cases hfew : events.length < cfg.min_event_count
  · rw [if_pos hfew] at hrt
    constructor
    · exact ⟨fun _ => hfew, fun _ => ⟨_, hrt.symm⟩⟩
    · intro res hres
      rw [← hrt] at hres
      cases hres
  · rw [if_neg hfew] at hrt
    constructor
    · refine ⟨fun ⟨err, herr⟩ => ?_, fun hc => absurd hc hfew⟩
      rw [herr] at hrt
      cases hrt
    · intro res hres
      rw [← hrt] at hres
      cases hres
      exact ⟨rfl, Nat.min_le_left _ _⟩

/-- Witness for C8: three detected events with min_event_count five make
the aggregate test fail with InsufficientSampleError, and with
min_event_count two the same input succeeds with the effective sample
capped by the available windows. -/
theorem test_significance_contract_witness :
    (∀ r ∈ StatisticalAnalyzer.test_significance
        [⟨0, 0, 1, 2, none, false⟩, ⟨1, 3, 4, 2, none, false⟩,
         ⟨2, 6, 7, 2, none, false⟩] 10 ⟨100, 5, 2⟩
        [("mean_tau", fun _ => 0)] (fun _ => 0),
      (∃ err, r = .error err) ↔
        ([(⟨0, 0, 1, 2, none, false⟩ : DustEvent ℚ), ⟨1, 3, 4, 2, none, false⟩,
          ⟨2, 6, 7, 2, none, false⟩].length < 5)) ∧
    (3 : Nat) < 5 :=
  ⟨fun r hr => ((test_significance_contract
      [⟨0, 0, 1, 2, none, false⟩, ⟨1, 3, 4, 2, none, false⟩,
       ⟨2, 6, 7, 2, none, false⟩] 10 ⟨100, 5, 2⟩
      [("mean_tau", fun _ => 0)] (fun _ => 0)).2 r hr).1, by decide⟩

/-- C1: importing the package always fails, because __init__.py imports
the module event_detection (after the present data_acquisition), and that
module is absent from the source tree; hence the import never succeeds
and no name of __all__ is reachable through the package. -/
theorem importPackage_fails :
    importPackage = Except.error "event_detection" ∧
    importPackage.isOk = false :=
  ⟨rfl, rfl⟩
